import Mathlib

/-!
Verification of the acquisition-and-normalization pipeline of the CACHE.UK
repository (scripts/download_rns.py): content normalization (clean_text),
entity/ticker extraction (extract_company_ticker), announcement classification
(classify_announcement), the Investegate pattern-cascade scraper
(scrape_investegate_main), the Yahoo Finance feed fetcher
(fetch_yahoo_finance_rss), and near-duplicate suppression
(remove_similar_duplicates, with its inner similarity function).

Strings are modelled as lists of characters (Python str over the ASCII
fragment the pipeline manipulates).  Python floats are modelled as rationals:
every similarity value produced on realistic inputs (a quotient of two small
set cardinalities) and the thresholds 0.7/0.8 are exactly representable, and
all comparisons appearing in the code agree with their rational counterparts
on such values.  Network retrieval, feed parsing, and clock reads are external
effects: the functions that used them take their results (feed entries, the
per-pattern findall results, the page link list, timestamp strings) as
explicit arguments.
-/

abbrev Str := List Char

/-- Convert a Lean string literal to the character-list model. -/
def str (s : String) : Str := s.data

/-- Python whitespace predicate (re \s and str.split / str.strip), ASCII range. -/
def pyIsSpace (c : Char) : Bool :=
  c == ' ' || c == '\t' || c == '\n' || c == '\r' || c == '\x0b' || c == '\x0c'

/-! ### Content Normalizer: clean_text (download_rns.py lines 80-97) -/

/-- Helper for the entity decoder: recognize a named character reference that
follows an ambersand, returning the decoded character and the number of source
characters consumed. -/
def entRepl (rest : Str) : Option (Char × ℕ) :=
  if (str "amp;").isPrefixOf rest then some ('&', 4)
  else if (str "lt;").isPrefixOf rest then some ('<', 3)
  else if (str "gt;").isPrefixOf rest then some ('>', 3)
  else if (str "quot;").isPrefixOf rest then some ('"', 5)
  else none

/-- Fuelled scanner for the entity decoder; the fuel is an upper bound on the
number of characters still to be scanned, so fuel = length is always enough. -/
def puAux : ℕ → Str → Str
  | 0, l => l
  | _ + 1, [] => []
  | f + 1, c :: rest =>
    if c = '&' then
      match entRepl rest with
      | some (ch, k) => ch :: puAux f (rest.drop k)
      | none => '&' :: puAux f rest
    else c :: puAux f rest

/-- Model of the stdlib HTML entity decoder html.unescape, restricted to the
core named references the feed/scrape texts contain (amp, lt, gt, quot);
on text containing no ambersand it is the identity, exactly as the stdlib
decoder is. -/
def pyUnescape (l : Str) : Str := puAux l.length l

/-- One-pass scanner for re.sub("<[^>]+>", "", text).  The second argument is
the mode: none = outside any candidate tag; some acc = we have read a "<" and
then the reversed characters acc, none of which is ">".  A "<" immediately
followed by ">" is not a tag (the regex body needs at least one character),
and a "<" with no later ">" is kept verbatim, matching the regex backtracking
behaviour. -/
def rtAux : Str → Option Str → Str
  | [], none => []
  | [], some acc => '<' :: acc.reverse
  | c :: rest, none => if c = '<' then rtAux rest (some []) else c :: rtAux rest none
  | c :: rest, some acc =>
    if c = '>' then
      (if acc = [] then '<' :: '>' :: rtAux rest none else rtAux rest none)
    else rtAux rest (some (c :: acc))

/-- re.sub("<[^>]+>", "", text): delete every maximal "<...>" group whose body
is non-empty and ">"-free. -/
def removeTags (l : Str) : Str := rtAux l none

/-- Scanner for re.sub("\s+", " ", text); the flag records whether the
previous character was inside a whitespace run already replaced. -/
def cwAux : Str → Bool → Str
  | [], _ => []
  | c :: rest, inRun =>
    if pyIsSpace c then
      (if inRun then cwAux rest true else ' ' :: cwAux rest true)
    else c :: cwAux rest false

/-- re.sub("\s+", " ", text): collapse every whitespace run to one space. -/
def collapseWs (l : Str) : Str := cwAux l false

/-- Python str.strip(): drop leading and trailing whitespace. -/
def stripWs (l : Str) : Str :=
  ((l.dropWhile pyIsSpace).reverse.dropWhile pyIsSpace).reverse

/-- Python text.replace("\\n", " "): the two-character sequence backslash-n is
replaced by one space, scanning left to right without overlap. -/
def replaceBsN : Str → Str
  | [] => []
  | [c] => [c]
  | c1 :: c2 :: rest =>
    if c1 = '\\' ∧ c2 = 'n' then ' ' :: replaceBsN rest
    else c1 :: replaceBsN (c2 :: rest)

/-- Python text.replace("\\t", " "). -/
def replaceBsT : Str → Str
  | [] => []
  | [c] => [c]
  | c1 :: c2 :: rest =>
    if c1 = '\\' ∧ c2 = 't' then ' ' :: replaceBsT rest
    else c1 :: replaceBsT (c2 :: rest)

/-- clean_text (download_rns.py lines 80-97): empty text is returned at once;
otherwise decode entities, delete markup tags, collapse whitespace runs and
strip the ends, then replace literal backslash-n and backslash-t artifacts by
spaces, in exactly this order. -/
def clean_text (text : Str) : Str :=
  if text = [] then []
  else replaceBsT (replaceBsN (stripWs (collapseWs (removeTags (pyUnescape text)))))

/-! ### Word tokens and the Deduplicator similarity (lines 482-496) -/

/-- Accumulating scanner for Python str.split() with no separator argument:
whitespace runs separate the words, no empty words are produced. -/
def splitWsAux : Str → Str → List Str
  | [], cur => if cur = [] then [] else [cur.reverse]
  | c :: rest, cur =>
    if pyIsSpace c then
      (if cur = [] then splitWsAux rest [] else cur.reverse :: splitWsAux rest [])
    else splitWsAux rest (c :: cur)

/-- Python str.split() with no argument. -/
def splitWs (l : Str) : List Str := splitWsAux l []

/-- Python str.lower() on the ASCII fragment. -/
def lowerStr (l : Str) : Str := l.map Char.toLower

/-- set(s.lower().split()) of the similarity helper: the distinct lowered
word tokens of a title.  A duplicate-free list stands for the Python set; only
cardinalities of intersections and unions are ever taken from it. -/
def wordSet (s : Str) : List Str := (splitWs (lowerStr s)).dedup

/-- len(words1.intersection(words2)) over the duplicate-free token lists. -/
def simInter (w1 w2 : List Str) : ℕ := (w1.filter (fun w => decide (w ∈ w2))).length

/-- len(words1.union(words2)) over the duplicate-free token lists. -/
def simUnion (w1 w2 : List Str) : ℕ := w1.length + (w2.filter (fun w => decide (w ∉ w1))).length

/-- similarity (download_rns.py lines 482-496): 0 when either string is empty
or either token set is empty, else the Jaccard ratio of the two word-token
sets (guarded once more by union > 0, as in the source). -/
def similarity (s1 s2 : Str) : ℚ :=
  if s1 = [] ∨ s2 = [] then 0
  else if (wordSet s1).length = 0 ∨ (wordSet s2).length = 0 then 0
  else if 0 < simUnion (wordSet s1) (wordSet s2) then
    (simInter (wordSet s1) (wordSet s2) : ℚ) / (simUnion (wordSet s1) (wordSet s2) : ℚ)
  else 0

/-! ### Entity/Ticker Extractor: extract_company_ticker (lines 100-133) -/

/-- The extractor result dict: ticker and company_name, each possibly empty. -/
structure CompanyInfo where
  ticker : Str
  company_name : Str
deriving DecidableEq, Repr

/-- Uppercase A-Z test ([A-Z] in the extractor regexes). -/
def isUp (c : Char) : Bool := 'A' ≤ c && c ≤ 'Z'

/-- After the ticker letters of pattern 1, the optional exchange qualifier
(?:[:.](?:LON|L))? followed by the closing parenthesis, with the alternation
tried in regex order. -/
def sufOk : Str → Bool
  | ')' :: _ => true
  | ':' :: 'L' :: 'O' :: 'N' :: ')' :: _ => true
  | ':' :: 'L' :: ')' :: _ => true
  | '.' :: 'L' :: 'O' :: 'N' :: ')' :: _ => true
  | '.' :: 'L' :: ')' :: _ => true
  | _ => false

/-- Inside pattern 1, the text after an opening parenthesis: a full uppercase
run of length 2-5 captured as the ticker, then the optional qualifier and the
closing parenthesis.  A shorter prefix of the run can never succeed because
the next character would again be uppercase. -/
def tickerAt (after : Str) : Option Str :=
  let u := after.takeWhile isUp
  if 2 ≤ u.length ∧ u.length ≤ 5 ∧ sufOk (after.dropWhile isUp) then some u else none

/-- re.search of pattern 1, ([A-Z][^(]*?)\s*\(([A-Z]{2,5})(?:[:.](?:LON|L))?\),
scanning start positions left to right.  At an uppercase start the lazy body
cannot cross a parenthesis, so the consumed "(" is the first one after the
start; the captured name is the text from the start up to that parenthesis
(the match puts its trailing whitespace into \s*, and the caller strips the
group anyway, so stripWs is applied here once). -/
def matchP1 : Str → Option (Str × Str)
  | [] => none
  | c :: rest =>
    if isUp c then
      match (c :: rest).dropWhile (· ≠ '(') with
      | '(' :: after =>
        match tickerAt after with
        | some tk => some (stripWs ((c :: rest).takeWhile (· ≠ '(')), tk)
        | none => matchP1 rest
      | _ => matchP1 rest
    else matchP1 rest

/-- Inside pattern 2, the text after an opening parenthesis: an uppercase run
of length 2-5 closed immediately by ")". -/
def tickerAt2 (after : Str) : Option Str :=
  let u := after.takeWhile isUp
  if 2 ≤ u.length ∧ u.length ≤ 5 ∧ (after.dropWhile isUp).head? = some ')' then some u else none

/-- re.search of pattern 2, \(([A-Z]{2,5})\), scanning left to right. -/
def matchP2 : Str → Option Str
  | [] => none
  | c :: rest =>
    if c = '(' then
      match tickerAt2 rest with
      | some tk => some tk
      | none => matchP2 rest
    else matchP2 rest

/-- The \s*(.+) tail of pattern 3 applied to the text after the colon: greedy
whitespace, backtracked until the dot can match at least one character (a dot
never matches a newline); the group is the maximal newline-free run from that
point. -/
def p3Body (rest0 : Str) : Option Str :=
  let r := rest0.dropWhile pyIsSpace
  if r ≠ [] then some (r.takeWhile (· ≠ '\n'))
  else
    match rest0.reverse.dropWhile (· = '\n') with
    | [] => none
    | c :: _ => some [c]

/-- re.search of pattern 3, ^([A-Z]{2,5}):\s*(.+), anchored at the start: the
full leading uppercase run (length 2-5), a colon, then the \s*(.+) tail. -/
def matchP3 (title : Str) : Option (Str × Str) :=
  let u := title.takeWhile isUp
  if 2 ≤ u.length ∧ u.length ≤ 5 then
    match title.dropWhile isUp with
    | ':' :: rest0 => (p3Body rest0).map (fun g2 => (u, g2))
    | _ => none
  else none

/-- re.search("^([^(]+)", title) followed by .strip(): the stripped text
before the first parenthesis, defined when the title does not begin with a
parenthesis and is non-empty. -/
def startName (title : Str) : Option Str :=
  match title with
  | [] => none
  | c :: _ => if c = '(' then none else some (stripWs (title.takeWhile (· ≠ '(')))

/-- re.search("^([^:,]+)", rest) followed by .strip(): the stripped text
before the first colon or comma. -/
def restName (rest : Str) : Option Str :=
  match rest with
  | [] => none
  | c :: _ =>
    if c = ':' ∨ c = ',' then none
    else some (stripWs (rest.takeWhile (fun c => ¬ (c = ':' ∨ c = ','))))

/-- extract_company_ticker (download_rns.py lines 100-133).  Pattern 1 returns
immediately on a match.  Pattern 2, when it matches, fills the ticker and
best-effort the name, but does not return: pattern 3 still runs and, when it
matches, overwrites the ticker and possibly the name.  The combined
title-plus-content text is computed by the source but never used: every
pattern searches the title only. -/
def extract_company_ticker (title content : Str) : CompanyInfo :=
  let _combined := title ++ [' '] ++ content
  match matchP1 title with
  | some (nm, tk) => { ticker := tk, company_name := nm }
  | none =>
    let ci0 : CompanyInfo := { ticker := [], company_name := [] }
    let ci2 :=
      match matchP2 title with
      | some tk =>
        { ticker := tk,
          company_name := match startName title with
                          | some nm => nm
                          | none => ci0.company_name }
      | none => ci0
    match matchP3 title with
    | some (tk, rest) =>
      { ticker := tk,
        company_name := match restName rest with
                        | some nm => nm
                        | none => ci2.company_name }
    | none => ci2

/-! ### Announcement Classifier: classify_announcement (lines 136-172) -/

/-- Substring containment, Python "kw in text". -/
def hasKw : Str → Str → Bool
  | t, kw =>
    match t with
    | [] => kw.isPrefixOf []
    | _ :: rest => kw.isPrefixOf t || hasKw rest kw

/-- Keywords of the "results" category. -/
def resultsKws : List Str :=
  [str "results", str "earnings", str "interim", str "final", str "half year",
   str "full year", str "quarterly", str "q1", str "q2", str "q3", str "q4"]

/-- Keywords of the "trading_update" category. -/
def tradingUpdateKws : List Str :=
  [str "trading update", str "trading statement", str "guidance", str "outlook",
   str "forecast"]

/-- Keywords of the "acquisition" category. -/
def acquisitionKws : List Str :=
  [str "acquisition", str "merger", str "takeover", str "purchase", str "buy",
   str "acquire"]

/-- Keywords of the "disposal" category. -/
def disposalKws : List Str :=
  [str "disposal", str "sale", str "sell", str "divestment", str "divest"]

/-- Keywords of the "dividend" category. -/
def dividendKws : List Str :=
  [str "dividend", str "distribution", str "payment", str "payout", str "yield"]

/-- Keywords of the "appointment" category. -/
def appointmentKws : List Str :=
  [str "appointment", str "director", str "ceo", str "cfo", str "chairman",
   str "board", str "joins", str "named"]

/-- Keywords of the "fundraising" category. -/
def fundraisingKws : List Str :=
  [str "fundraising", str "placing", str "rights issue", str "share issue",
   str "capital", str "funding"]

/-- Keywords of the "contract" category. -/
def contractKws : List Str :=
  [str "contract", str "award", str "wins", str "secured", str "agreement",
   str "deal"]

/-- Keywords of the "regulatory" category. -/
def regulatoryKws : List Str :=
  [str "regulatory", str "compliance", str "investigation", str "fine",
   str "penalty"]

/-- The classifier keyword table, in the source dict insertion order. -/
def categoriesList : List (Str × List Str) :=
  [ (str "results", resultsKws),
    (str "trading_update", tradingUpdateKws),
    (str "acquisition", acquisitionKws),
    (str "disposal", disposalKws),
    (str "dividend", dividendKws),
    (str "appointment", appointmentKws),
    (str "fundraising", fundraisingKws),
    (str "contract", contractKws),
    (str "regulatory", regulatoryKws),
    (str "other", []) ]

/-- The lowered combined text f-string of the classifier. -/
def classifyText (title content : Str) : Str := lowerStr (title ++ [' '] ++ content)

/-- The classifier loop: skip the "other" entry, return the first category one
of whose keywords occurs in the text, default "other". -/
def classifyGo : List (Str × List Str) → Str → Str
  | [], _ => str "other"
  | (cat, kws) :: rest, text =>
    if cat = str "other" then classifyGo rest text
    else if kws.any (fun kw => hasKw text kw) then cat
    else classifyGo rest text

/-- classify_announcement (download_rns.py lines 136-172). -/
def classify_announcement (title content : Str) : Str :=
  classifyGo categoriesList (classifyText title content)

-- sanity checks of the embedding on concrete inputs
example : clean_text (str " <b>Hi&amp;lo</b>   x ") = str "Hi&lo x" := by decide
example : clean_text (str "a\\n") = str "a " := by decide
example : splitWs (str "  ab  cd ") = [str "ab", str "cd"] := by decide
example : matchP1 (str "Acme Corp (ACM)") = some (str "Acme Corp", str "ACM") := by decide
example : matchP1 (str "Acme Corp (ACM.L)") = some (str "Acme Corp", str "ACM") := by decide
example : matchP1 (str "x (AB:LON) y") = none := by decide
example : matchP2 (str "see (ABCDE) x") = some (str "ABCDE") := by decide
example : matchP2 (str "see (ABCDEF) x") = none := by decide
example : matchP3 (str "LLOY: Lloyds Banking Group announces") =
    some (str "LLOY", str "Lloyds Banking Group announces") := by decide
example : extract_company_ticker (str "LLOY: Lloyds Banking Group announces, x") [] =
    { ticker := str "LLOY", company_name := str "Lloyds Banking Group announces" } := by decide
example : classify_announcement (str "Special dividend declared") [] = str "dividend" := by decide
example : classify_announcement (str "Dividend after results") [] = str "results" := by decide
example : classify_announcement (str "nothing here") [] = str "other" := by decide

/-! ### The Announcement Record and the Yahoo feed fetcher (lines 367-412) -/

/-- The Announcement Record dict assembled by the fetchers and scrapers. -/
structure Rec where
  title : Str
  link : Str
  published : Str
  summary : Str
  category : Str
  author : Str
  guid : Str
  source : Str
  source_url : Str
  source_priority : ℕ
  ticker : Str
  company_name : Str
  rns_type : Str
  scraped_at : Str
deriving DecidableEq, Repr, Inhabited

/-- One parsed feed entry as delivered by feedparser (entry.get fields with
empty-string defaults). -/
structure FeedEntry where
  title : Str
  link : Str
  published : Str
  summary : Str
  category : Str
  guid : Str
deriving DecidableEq, Repr

/-- The hard-coded Yahoo Finance feed URL. -/
def yahooUrl : Str := str "https://feeds.finance.yahoo.com/rss/2.0/headline?s=^FTSE&region=GB&lang=en-GB"

/-- fetch_yahoo_finance_rss (download_rns.py lines 367-412): one record per
parsed entry up to the limit, fields cleaned and enriched; no entry is
filtered out.  The parsed entry list and the utcnow timestamp are passed in;
the network failure branch returns [] at the call boundary and is not part of
the per-entry record construction modelled here. -/
def fetch_yahoo_finance_rss (entries : List FeedEntry) (limit : ℕ) (nowUtc : Str) : List Rec :=
  (entries.take limit).map fun e =>
    let title := clean_text e.title
    let summary := clean_text e.summary
    let ci := extract_company_ticker title summary
    { title := title, link := e.link, published := e.published, summary := summary,
      category := e.category, author := str "Yahoo Finance", guid := e.guid,
      source := str "Yahoo_Finance_UK", source_url := yahooUrl, source_priority := 3,
      ticker := ci.ticker, company_name := ci.company_name,
      rns_type := classify_announcement title summary, scraped_at := nowUtc }

/-! ### Pattern-Cascade Scraper: scrape_investegate_main (lines 175-299) -/

/-- The Investegate origin used to absolutize relative links. -/
def investegateOrigin : Str := str "https://www.investegate.co.uk"

/-- Link resolution of the pattern pass (lines 221-224): a link starting with
"/" gets the origin prepended; otherwise a link not starting with "http" gets
origin plus "/" prepended; otherwise it is kept. -/
def resolveLinkPattern (link : Str) : Str :=
  if link.head? = some '/' then investegateOrigin ++ link
  else if (str "http").isPrefixOf link then link
  else investegateOrigin ++ [ '/' ] ++ link

/-- The generic filler titles rejected by the pattern pass. -/
def genericTitles : List Str := [str "more", str "read more", str "click here"]

/-- Record assembly of the pattern pass (lines 230-245).  The published field
is date_str or now (an empty date string falls back to the clock string). -/
def mkPatternRecord (now nowUtc : Str) (link title dateStr : Str) : Rec :=
  let ci := extract_company_ticker title []
  { title := title, link := link,
    published := if dateStr = [] then now else dateStr,
    summary := [], category := str "rns", author := str "Investegate",
    guid := link, source := str "Investegate_Direct",
    source_url := str "https://www.investegate.co.uk/", source_priority := 1,
    ticker := ci.ticker, company_name := ci.company_name,
    rns_type := classify_announcement title [], scraped_at := nowUtc }

/-- Per-match processing of the pattern pass (lines 210-247): a findall tuple
is its list of captured groups; tuples of fewer than two groups are skipped,
the title is cleaned, short or generic titles are skipped, the link is
resolved, and the record is assembled. -/
def processMatch (now nowUtc : Str) (m : List Str) : Option Rec :=
  match m with
  | link :: rawTitle :: restG =>
    let title := clean_text rawTitle
    let dateStr := match restG with | d :: _ => d | [] => []
    if title.length < 10 ∨ lowerStr title ∈ genericTitles then none
    else some (mkPatternRecord now nowUtc (resolveLinkPattern link) title dateStr)
  | _ => none

/-- All records one extraction pattern contributes: its findall result list is
truncated to the limit, then each tuple is processed. -/
def processPatternMatches (limit : ℕ) (now nowUtc : Str) (ms : List (List Str)) : List Rec :=
  (ms.take limit).filterMap (processMatch now nowUtc)

/-- The pattern cascade (lines 207-250): patterns are tried in order against
the page, each contributing its records to the shared list, and the loop
breaks as soon as the list is non-empty, so the first pattern that yields at
least one structurally valid match determines the result. -/
def scrapePatterns (limit : ℕ) (now nowUtc : Str) : List (List (List Str)) → List Rec → List Rec
  | [], acc => acc
  | ms :: rest, acc =>
    let acc2 := acc ++ processPatternMatches limit now nowUtc ms
    if acc2 = [] then scrapePatterns limit now nowUtc rest acc2 else acc2

/-- The announcement-indicator keywords of the loose fallback (line 263). -/
def rnsIndicators : List Str :=
  [str "rns", str "announces", str "results", str "update", str "dividend",
   str "acquisition", str "appoint"]

/-- Record assembly of the loose fallback (lines 272-287). -/
def mkFallbackRecord (now nowUtc : Str) (link title : Str) : Rec :=
  let ci := extract_company_ticker title []
  { title := title, link := link, published := now, summary := [],
    category := str "rns", author := str "Investegate", guid := link,
    source := str "Investegate_Direct",
    source_url := str "https://www.investegate.co.uk/", source_priority := 1,
    ticker := ci.ticker, company_name := ci.company_name,
    rns_type := classify_announcement title [], scraped_at := nowUtc }

/-- The loose fallback loop (lines 257-292): over the page hyperlink/text
pairs, keep a pair whose cleaned title contains an indicator keyword
(lower-cased) and is longer than 15 characters; only links starting with "/"
are resolved here; the loop stops once the limit is reached. -/
def fallbackLoop (limit : ℕ) (now nowUtc : Str) : List (Str × Str) → List Rec → List Rec
  | [], acc => acc
  | (link, rawTitle) :: rest, acc =>
    let title := clean_text rawTitle
    if (rnsIndicators.any (fun kw => hasKw (lowerStr title) kw)) ∧ 15 < title.length then
      let link2 := if link.head? = some '/' then investegateOrigin ++ link else link
      let acc2 := acc ++ [mkFallbackRecord now nowUtc link2 title]
      if limit ≤ acc2.length then acc2 else fallbackLoop limit now nowUtc rest acc2
    else fallbackLoop limit now nowUtc rest acc

/-- scrape_investegate_main (download_rns.py lines 175-299).  The page body
and the regex engine are external: patternResults is the list of re.findall
result lists, one per pattern in order, and allLinks the findall result of
the loose hyperlink/text regex over the same page (truncated to limit * 2 as
in line 259); now and nowUtc are the clock strings. -/
def scrape_investegate_main (patternResults : List (List (List Str)))
    (allLinks : List (Str × Str)) (limit : ℕ) (now nowUtc : Str) : List Rec :=
  let records := scrapePatterns limit now nowUtc patternResults []
  if records = [] then fallbackLoop limit now nowUtc (allLinks.take (limit * 2)) []
  else records

/-! ### Deduplicator: remove_similar_duplicates (lines 479-515) -/

/-- The accept/discard loop of remove_similar_duplicates: a candidate is
discarded exactly when its title has similarity strictly above the threshold
with the title of some record already accepted; otherwise it is appended. -/
def rsdLoop (t : ℚ) : List Rec → List Rec → List Rec
  | acc, [] => acc
  | acc, r :: rs =>
    if ∃ e ∈ acc, t < similarity r.title e.title then rsdLoop t acc rs
    else rsdLoop t (acc ++ [r]) rs

/-- remove_similar_duplicates (download_rns.py lines 479-515); its main-line
call site (line 608) passes similarity_threshold = 0.7. -/
def remove_similar_duplicates (records : List Rec) (threshold : ℚ) : List Rec :=
  rsdLoop threshold [] records

/-- The accepted list after the first i candidates have been examined. -/
def acceptedUpTo (records : List Rec) (threshold : ℚ) (i : ℕ) : List Rec :=
  rsdLoop threshold [] (records.take i)

/-- A record all of whose fields are empty; used in concrete checks. -/
def emptyRec : Rec :=
  { title := [], link := [], published := [], summary := [], category := [],
    author := [], guid := [], source := [], source_url := [], source_priority := 0,
    ticker := [], company_name := [], rns_type := [], scraped_at := [] }

example : resolveLinkPattern (str "/news/a1") = str "https://www.investegate.co.uk/news/a1" := by
  decide
example : resolveLinkPattern (str "news/a1") = str "https://www.investegate.co.uk/news/a1" := by
  decide
example : resolveLinkPattern (str "http://x/y") = str "http://x/y" := by decide

/-! ### Concrete inputs used in the claim checks -/

/-- A record whose seven-token title is wholly contained in the next one. -/
def dedupRecA : Rec := { emptyRec with title := str "a b c d e f g" }

/-- A record with ten tokens, seven shared with dedupRecA: Jaccard 7/10. -/
def dedupRecB : Rec := { emptyRec with title := str "a b c d e f g x y z" }

/-- The two-record input whose only candidate pair sits exactly at 0.7. -/
def dedupPair : List Rec := [dedupRecA, dedupRecB]

/-- Five findall tuples for the first pattern of the cascade. -/
def c7p1 : List (List Str) :=
  [[str "/n/a1", str "Alpha interim results", str "d1"],
   [str "/n/a2", str "Beta trading update", str "d2"],
   [str "/n/a3", str "Gamma wins contract", str "d3"],
   [str "/n/a4", str "Delta final dividend", str "d4"],
   [str "/n/a5", str "Epsilon share placing", str "d5"]]

/-- Five different findall tuples for the second pattern of the cascade. -/
def c7p2 : List (List Str) :=
  [[str "/n/b1", str "Zeta results update", str "e1"],
   [str "/n/b2", str "Eta board appointment", str "e2"],
   [str "/n/b3", str "Theta rights issue", str "e3"],
   [str "/n/b4", str "Iota merger talks", str "e4"],
   [str "/n/b5", str "Kappa disposal plan", str "e5"]]

/-- Modelled from the spec: a link is an absolute URL when scheme and host
are present, i.e. the text has a separator "://" with a non-empty scheme
before it and a non-empty host after it. -/
def urlHasSchemeHost (l : Str) : Bool :=
  (List.range l.length).any
    (fun i => decide (0 < i) && (str "://").isPrefixOf (l.drop i) && decide (i + 3 < l.length))

/-- A parsed feed with three non-empty-title entries and one empty-title
entry. -/
def c1Entries : List FeedEntry :=
  [{ title := str "Alpha Plc interim results", link := str "l1", published := str "p1",
     summary := [], category := [], guid := str "g1" },
   { title := str "Beta Plc trading update", link := str "l2", published := str "p2",
     summary := [], category := [], guid := str "g2" },
   { title := str "Gamma Plc final dividend", link := str "l3", published := str "p3",
     summary := [], category := [], guid := str "g3" },
   { title := [], link := str "l4", published := str "p4",
     summary := [], category := [], guid := str "g4" }]

/-! ### Predicates used in the clean_text analysis -/

/-- The text after a "<" admits no tag body: either a ">" follows at once
(the regex body needs at least one character) or no ">" occurs at all. -/
def tagOkAfter (rest : Str) : Prop := rest.head? = some '>' ∨ '>' ∉ rest

/-- No substring of the text matches the tag regex "<[^>]+>": each "<" is
either immediately closed or never closed. -/
def tagFree : Str → Prop
  | [] => True
  | c :: rest => (c = '<' → tagOkAfter rest) ∧ tagFree rest

/-- No two adjacent whitespace characters. -/
def noAdjWs (l : Str) : Prop :=
  l.Chain' (fun a b => ¬(pyIsSpace a = true ∧ pyIsSpace b = true))

/-- Every whitespace character of the text is a plain space. -/
def wsEachSpace (l : Str) : Prop := ∀ c ∈ l, pyIsSpace c = true → c = ' '

/-! ### Helper lemmas about the similarity function -/

theorem wordSet_nodup (s : Str) : (wordSet s).Nodup := List.nodup_dedup _

theorem simInter_eq_card (w1 w2 : List Str) (h1 : w1.Nodup) :
    simInter w1 w2 = (w1.toFinset ∩ w2.toFinset).card := by
  rw [simInter]
  have hn : (w1.filter (fun w => decide (w ∈ w2))).Nodup := h1.filter _
  rw [← List.toFinset_card_of_nodup hn, List.toFinset_filter]
  congr 1
  ext a
  simp [List.mem_toFinset]

theorem simUnion_eq_card (w1 w2 : List Str) (h1 : w1.Nodup) (h2 : w2.Nodup) :
    simUnion w1 w2 = (w1.toFinset ∪ w2.toFinset).card := by
  rw [simUnion]
  have hfe : (w2.filter (fun w => decide (w ∉ w1))).toFinset = w2.toFinset \ w1.toFinset := by
    ext a
    simp [List.mem_toFinset]
  have hlen : (w2.filter (fun w => decide (w ∉ w1))).length = (w2.toFinset \ w1.toFinset).card := by
    rw [← hfe, List.toFinset_card_of_nodup (h2.filter _)]
  rw [hlen, ← List.toFinset_card_of_nodup h1,
    ← Finset.card_union_of_disjoint Finset.disjoint_sdiff, Finset.union_sdiff_self_eq_union]

theorem simInter_le_simUnion (w1 w2 : List Str) : simInter w1 w2 ≤ simUnion w1 w2 :=
  le_trans (List.length_filter_le _ _) (Nat.le_add_right _ _)

theorem similarity_comm (s1 s2 : Str) : similarity s1 s2 = similarity s2 s1 := by
  rw [similarity, similarity]
  by_cases h1 : s1 = [] ∨ s2 = []
  · rw [if_pos h1, if_pos (Or.symm h1)]
  · rw [if_neg h1, if_neg (fun h => h1 (Or.symm h))]
    by_cases h2 : (wordSet s1).length = 0 ∨ (wordSet s2).length = 0
    · rw [if_pos h2, if_pos (Or.symm h2)]
    · rw [if_neg h2, if_neg (fun h => h2 (Or.symm h))]
      rw [simInter_eq_card _ _ (wordSet_nodup s1), simInter_eq_card _ _ (wordSet_nodup s2),
        simUnion_eq_card _ _ (wordSet_nodup s1) (wordSet_nodup s2),
        simUnion_eq_card _ _ (wordSet_nodup s2) (wordSet_nodup s1),
        Finset.inter_comm, Finset.union_comm]

theorem similarity_nonneg (s1 s2 : Str) : 0 ≤ similarity s1 s2 := by
  rw [similarity]
  split
  · exact le_refl 0
  split
  · exact le_refl 0
  split
  · exact div_nonneg (Nat.cast_nonneg _) (Nat.cast_nonneg _)
  · exact le_refl 0

theorem similarity_le_one (s1 s2 : Str) : similarity s1 s2 ≤ 1 := by
  rw [similarity]
  split
  · exact zero_le_one
  split
  · exact zero_le_one
  split
  · next hu =>
    rw [div_le_one (by exact_mod_cast hu)]
    exact_mod_cast simInter_le_simUnion _ _
  · exact zero_le_one

theorem similarity_zero_of_tokenless (s1 s2 : Str)
    (h : s1 = [] ∨ s2 = [] ∨ wordSet s1 = [] ∨ wordSet s2 = []) :
    similarity s1 s2 = 0 := by
  rw [similarity]
  by_cases h1 : s1 = [] ∨ s2 = []
  · rw [if_pos h1]
  · rw [if_neg h1]
    have h2 : (wordSet s1).length = 0 ∨ (wordSet s2).length = 0 := by
      rcases h with h | h | h | h
      · exact absurd (Or.inl h) h1
      · exact absurd (Or.inr h) h1
      · exact Or.inl (by rw [h]; rfl)
      · exact Or.inr (by rw [h]; rfl)
    rw [if_pos h2]

theorem similarity_self (s : Str) (hs : s ≠ []) (hw : wordSet s ≠ []) :
    similarity s s = 1 := by
  rw [similarity, if_neg (by simp [hs])]
  have hlen : (wordSet s).length ≠ 0 := by simpa [List.length_eq_zero] using hw
  rw [if_neg (by simp [hlen])]
  have hi : simInter (wordSet s) (wordSet s) = (wordSet s).length := by
    rw [simInter]
    congr 1
    rw [List.filter_eq_self]
    intro a ha
    simp [ha]
  have hu : simUnion (wordSet s) (wordSet s) = (wordSet s).length := by
    rw [simUnion]
    have : (wordSet s).filter (fun w => decide (w ∉ wordSet s)) = [] := by
      rw [List.filter_eq_nil_iff]
      intro a ha
      simp [ha]
    rw [this]
    simp
  rw [if_pos (by rw [hu]; exact Nat.pos_of_ne_zero hlen), hi, hu]
  rw [div_self (by exact_mod_cast hlen)]

/-! ### Helper lemmas about the deduplication loop -/

theorem rsdLoop_eq_append (t : ℚ) (rs : List Rec) :
    ∀ acc : List Rec, ∃ sub, rsdLoop t acc rs = acc ++ sub ∧ List.Sublist sub rs := by
  induction rs with
  | nil => exact fun acc => ⟨[], by simp [rsdLoop], List.Sublist.refl []⟩
  | cons r rs ih =>
    intro acc
    rw [rsdLoop]
    by_cases h : ∃ e ∈ acc, t < similarity r.title e.title
    · obtain ⟨sub, heq, hsub⟩ := ih acc
      exact ⟨sub, by rw [if_pos h]; exact heq, hsub.cons r⟩
    · obtain ⟨sub, heq, hsub⟩ := ih (acc ++ [r])
      exact ⟨r :: sub, by rw [if_neg h, heq]; simp, hsub.cons₂ r⟩

theorem rsdLoop_append_split (t : ℚ) (l1 l2 acc : List Rec) :
    rsdLoop t acc (l1 ++ l2) = rsdLoop t (rsdLoop t acc l1) l2 := by
  induction l1 generalizing acc with
  | nil => rw [List.nil_append, rsdLoop]
  | cons r l1 ih =>
    rw [List.cons_append, rsdLoop, rsdLoop]
    by_cases h : ∃ e ∈ acc, t < similarity r.title e.title
    · rw [if_pos h, if_pos h, ih]
    · rw [if_neg h, if_neg h, ih]

/-- C9 helper: the deduplicated list is a sublist of the input. -/
theorem remove_similar_duplicates_sublist (rs : List Rec) (t : ℚ) :
    List.Sublist (remove_similar_duplicates rs t) rs := by
  obtain ⟨sub, heq, hsub⟩ := rsdLoop_eq_append t rs []
  rw [remove_similar_duplicates, heq, List.nil_append]
  exact hsub

/-- C9: the Deduplicator only filters and never mutates — its output is a
subsequence of the input: every output record is one of the input records
with all fields unchanged, and retained records keep their original relative
order. -/
theorem C9_dedup_is_subsequence :
    ∀ (records : List Rec) (threshold : ℚ),
      List.Sublist (remove_similar_duplicates records threshold) records :=
  remove_similar_duplicates_sublist

/-- C6: in the near-duplicate pass a candidate is discarded exactly when its
title has word-token-set Jaccard similarity strictly greater than the
threshold with the title of some already-accepted record, and is appended
otherwise; in particular a candidate whose best similarity equals the
threshold exactly is accepted. -/
theorem C6_near_duplicate_boundary :
    ∀ (t : ℚ) (rs : List Rec) (i : ℕ) (h : i < rs.length),
      ((∃ e ∈ acceptedUpTo rs t i, t < similarity (rs.get ⟨i, h⟩).title e.title) →
        acceptedUpTo rs t (i + 1) = acceptedUpTo rs t i) ∧
      (¬ (∃ e ∈ acceptedUpTo rs t i, t < similarity (rs.get ⟨i, h⟩).title e.title) →
        acceptedUpTo rs t (i + 1) = acceptedUpTo rs t i ++ [rs.get ⟨i, h⟩]) := by
  intro t rs i h
  have htake : rs.take (i + 1) = rs.take i ++ [rs.get ⟨i, h⟩] := by
    rw [List.take_succ]
    congr 1
    rw [List.getElem?_eq_getElem h]
    rfl
  have hacc : rsdLoop t [] (rs.take i) = acceptedUpTo rs t i := rfl
  constructor
  · intro hex
    rw [acceptedUpTo, htake, rsdLoop_append_split, hacc, rsdLoop, if_pos hex, rsdLoop]
  · intro hex
    rw [acceptedUpTo, htake, rsdLoop_append_split, hacc, rsdLoop, if_neg hex, rsdLoop]

theorem sim_pair_eval :
    similarity (str "a b c d e f g x y z") (str "a b c d e f g") = 7/10 := by
  rw [similarity, if_neg (by decide), if_neg (by decide), if_pos (by decide)]
  rw [show simInter (wordSet (str "a b c d e f g x y z")) (wordSet (str "a b c d e f g")) = 7
      by decide]
  rw [show simUnion (wordSet (str "a b c d e f g x y z")) (wordSet (str "a b c d e f g")) = 10
      by decide]
  norm_num

theorem acceptedUpTo_pair_one : acceptedUpTo dedupPair (7/10) 1 = [dedupRecA] := by
  rw [acceptedUpTo, show dedupPair.take 1 = [dedupRecA] from rfl, rsdLoop,
    if_neg (by simp), rsdLoop]
  simp

/-- Witness for C6: with threshold 0.7 and a candidate whose similarity to the
single accepted record is exactly 7/10, the discard condition fails and the
candidate is accepted. -/
theorem C6_near_duplicate_boundary_witness :
    ¬ (∃ e ∈ acceptedUpTo dedupPair (7/10) 1,
        (7 : ℚ)/10 < similarity (dedupPair.get ⟨1, by decide⟩).title e.title) ∧
    acceptedUpTo dedupPair (7/10) 2 =
      acceptedUpTo dedupPair (7/10) 1 ++ [dedupPair.get ⟨1, by decide⟩] := by
  have hnot : ¬ (∃ e ∈ acceptedUpTo dedupPair (7/10) 1,
      (7 : ℚ)/10 < similarity (dedupPair.get ⟨1, by decide⟩).title e.title) := by
    rw [acceptedUpTo_pair_one]
    simp only [List.mem_singleton, exists_eq_left]
    rw [show (dedupPair.get ⟨1, by decide⟩).title = str "a b c d e f g x y z" from rfl,
      show dedupRecA.title = str "a b c d e f g" from rfl, sim_pair_eval]
    exact lt_irrefl _
  exact ⟨hnot, (C6_near_duplicate_boundary (7/10) dedupPair 1 (by decide)).2 hnot⟩

/-- C10: the Deduplicator similarity function is symmetric, always lands in
the closed rational interval [0, 1], and returns 0 whenever either argument
is empty or has no word tokens. -/
theorem C10_similarity_symmetric_bounded :
    ∀ s1 s2 : Str,
      similarity s1 s2 = similarity s2 s1 ∧
      0 ≤ similarity s1 s2 ∧ similarity s1 s2 ≤ 1 ∧
      ((s1 = [] ∨ s2 = [] ∨ wordSet s1 = [] ∨ wordSet s2 = []) → similarity s1 s2 = 0) :=
  fun s1 s2 => ⟨similarity_comm s1 s2, similarity_nonneg s1 s2, similarity_le_one s1 s2,
    similarity_zero_of_tokenless s1 s2⟩

/-- Witness for C10 at concrete inputs: an empty second argument and a
token-free (whitespace-only) first argument both give similarity 0. -/
theorem C10_similarity_witness :
    similarity (str "ab cd") [] = 0 ∧ similarity (str "  ") (str "xy") = 0 :=
  ⟨(C10_similarity_symmetric_bounded (str "ab cd") []).2.2.2 (Or.inr (Or.inl rfl)),
   (C10_similarity_symmetric_bounded (str "  ") (str "xy")).2.2.2
     (Or.inr (Or.inr (Or.inl (by decide))))⟩

/-! ### C4: no two retained records share a title (amended) -/

theorem rsdLoop_titles_pairwise (t : ℚ) (ht : t < 1) :
    ∀ (rs acc : List Rec),
      acc.Pairwise (fun a b => a.title = b.title → a.title = [] ∨ wordSet a.title = []) →
      (rsdLoop t acc rs).Pairwise
        (fun a b => a.title = b.title → a.title = [] ∨ wordSet a.title = []) := by
  intro rs
  induction rs with
  | nil => intro acc hacc; rw [rsdLoop]; exact hacc
  | cons r rs ih =>
    intro acc hacc
    rw [rsdLoop]
    by_cases h : ∃ e ∈ acc, t < similarity r.title e.title
    · rw [if_pos h]
      exact ih acc hacc
    · rw [if_neg h]
      apply ih
      rw [List.pairwise_append]
      refine ⟨hacc, List.pairwise_singleton _ _, ?_⟩
      intro a ha b hb
      simp only [List.mem_singleton] at hb
      subst hb
      intro hab
      by_contra hcon
      push_neg at hcon
      obtain ⟨hne, hwne⟩ := hcon
      apply h
      refine ⟨a, ha, ?_⟩
      rw [← hab, similarity_self a.title hne hwne]
      exact ht

/-- C4 amended: for any threshold below 1, the deduplicated output never
retains two records with identical titles unless that title is empty or has
no word tokens; token-free titles always have similarity 0 and are never
discarded, so they can repeat. -/
theorem C4_no_duplicate_titles_amended :
    ∀ (records : List Rec) (threshold : ℚ), threshold < 1 →
      (remove_similar_duplicates records threshold).Pairwise
        (fun a b => a.title = b.title → a.title = [] ∨ wordSet a.title = []) := by
  intro rs t ht
  exact rsdLoop_titles_pairwise t ht rs [] List.Pairwise.nil

/-- Counterexample to C4 as stated: two records with identical empty titles
are both retained by the Deduplicator (their similarity is defined 0), so the
output does contain two distinct records with the same title. -/
theorem C4_counterexample :
    remove_similar_duplicates [emptyRec, emptyRec] (7/10) = [emptyRec, emptyRec] ∧
    ¬ ([emptyRec, emptyRec].Pairwise (fun a b : Rec => a.title ≠ b.title)) := by
  constructor
  · rw [remove_similar_duplicates, rsdLoop, if_neg (by simp)]
    rw [rsdLoop, if_neg ?hc, rsdLoop]
    · simp
    case hc =>
      simp only [List.nil_append, List.mem_singleton, exists_eq_left]
      rw [show emptyRec.title = [] from rfl, similarity_zero_of_tokenless _ _ (Or.inl rfl)]
      norm_num
  · intro hp
    rw [List.pairwise_cons] at hp
    exact hp.1 emptyRec (by simp) rfl

/-- Witness for the amended C4 at the concrete threshold 0.7. -/
theorem C4_no_duplicate_titles_witness :
    ((7 : ℚ)/10 < 1) ∧
    (remove_similar_duplicates [emptyRec, emptyRec] (7/10)).Pairwise
      (fun a b => a.title = b.title → a.title = [] ∨ wordSet a.title = []) :=
  ⟨by norm_num, C4_no_duplicate_titles_amended [emptyRec, emptyRec] (7/10) (by norm_num)⟩

/-! ### C5: dividend classification and keyword priority -/

/-- C5: whenever the lowered combined text contains the keyword "dividend"
and matches no keyword of any category placed earlier than "dividend" in the
priority order (results, trading_update, acquisition, disposal — the first
four entries of the table), the classifier returns "dividend": earlier
categories always take precedence, and with none of them matching the
dividend entry is the first match. -/
theorem C5_dividend_priority :
    ∀ title content : Str,
      hasKw (classifyText title content) (str "dividend") = true →
      (∀ p ∈ categoriesList.take 4,
        p.2.any (fun kw => hasKw (classifyText title content) kw) = false) →
      classify_announcement title content = str "dividend" := by
  intro title content h1 h2
  have hA := h2 (str "results", resultsKws) (by simp [categoriesList])
  have hB := h2 (str "trading_update", tradingUpdateKws) (by simp [categoriesList])
  have hC := h2 (str "acquisition", acquisitionKws) (by simp [categoriesList])
  have hD := h2 (str "disposal", disposalKws) (by simp [categoriesList])
  simp only at hA hB hC hD
  have hdiv : dividendKws.any (fun kw => hasKw (classifyText title content) kw) = true := by
    rw [List.any_eq_true]
    exact ⟨str "dividend", by simp [dividendKws], h1⟩
  rw [classify_announcement,
    show categoriesList =
      (str "results", resultsKws) :: (str "trading_update", tradingUpdateKws) ::
      (str "acquisition", acquisitionKws) :: (str "disposal", disposalKws) ::
      (str "dividend", dividendKws) :: (str "appointment", appointmentKws) ::
      (str "fundraising", fundraisingKws) :: (str "contract", contractKws) ::
      (str "regulatory", regulatoryKws) :: [(str "other", [])] from rfl]
  rw [classifyGo, if_neg (by decide), hA, if_neg (by decide)]
  rw [classifyGo, if_neg (by decide), hB, if_neg (by decide)]
  rw [classifyGo, if_neg (by decide), hC, if_neg (by decide)]
  rw [classifyGo, if_neg (by decide), hD, if_neg (by decide)]
  rw [classifyGo, if_neg (by decide), hdiv, if_pos rfl]

/-- Witness for C5: a concrete title containing "dividend" and no earlier
keyword classifies as "dividend". -/
theorem C5_dividend_priority_witness :
    classify_announcement (str "Declared special dividend") [] = str "dividend" :=
  C5_dividend_priority (str "Declared special dividend") [] (by decide)
    (by decide)

/-! ### C3: extractor pattern order (amended) -/

/-- C3 amended: pattern 1 short-circuits — when it matches, its captures are
the result and the later patterns have no influence; but patterns 2 and 3 do
not short-circuit: whenever pattern 1 fails and pattern 3 matches, pattern 3
overwrites the ticker, even when pattern 2 matched first. -/
theorem C3_pattern_order :
    ∀ title content : Str,
      (∀ nm tk, matchP1 title = some (nm, tk) →
        extract_company_ticker title content = { ticker := tk, company_name := nm }) ∧
      (matchP1 title = none → ∀ tk g2, matchP3 title = some (tk, g2) →
        (extract_company_ticker title content).ticker = tk) := by
  intro title content
  constructor
  · intro nm tk h
    rw [extract_company_ticker, h]
  · intro h1 tk g2 h3
    rw [extract_company_ticker, h1, h3]

/-- Witness for C3: a title where pattern 1 matches and captures both fields,
and a title where pattern 1 fails while pattern 3 supplies the ticker. -/
theorem C3_pattern_order_witness :
    extract_company_ticker (str "Acme Corp (ACM)") [] =
      { ticker := str "ACM", company_name := str "Acme Corp" } ∧
    (extract_company_ticker (str "ZZ: hello there") []).ticker = str "ZZ" :=
  ⟨(C3_pattern_order (str "Acme Corp (ACM)") []).1 (str "Acme Corp") (str "ACM") (by decide),
   (C3_pattern_order (str "ZZ: hello there") []).2 (by decide) (str "ZZ")
     (str "hello there") (by decide)⟩

/-- Counterexample to C3 as stated: on the title "AB: (x) maybe (CD)" the
bare-parenthesized-ticker pattern 2 matches (capturing "CD") and the leading
"TICKER:" pattern 3 also matches (capturing "AB"); the extractor returns
pattern 3's ticker, not pattern 2's, so an earlier matching pattern does not
stop the cascade. -/
theorem C3_pattern_order_counterexample :
    matchP1 (str "AB: (x) maybe (CD)") = none ∧
    matchP2 (str "AB: (x) maybe (CD)") = some (str "CD") ∧
    matchP3 (str "AB: (x) maybe (CD)") = some (str "AB", str "(x) maybe (CD)") ∧
    (extract_company_ticker (str "AB: (x) maybe (CD)") []).ticker = str "AB" ∧
    ¬ ((extract_company_ticker (str "AB: (x) maybe (CD)") []).ticker = str "CD") := by
  refine ⟨by decide, by decide, by decide, by decide, by decide⟩

/-! ### C7: the first successful extraction pattern wins -/

/-- C7: whenever the first pattern of the cascade contributes at least one
structurally valid record, the whole scraper result is exactly that pattern's
record list — independent of every later pattern, of the page link list and
of the loose fallback, none of which are consulted. -/
theorem C7_first_pattern_wins :
    ∀ (p1 : List (List Str)) (rest : List (List (List Str))) (allLinks : List (Str × Str))
      (limit : ℕ) (now nowUtc : Str),
      processPatternMatches limit now nowUtc p1 ≠ [] →
      scrape_investegate_main (p1 :: rest) allLinks limit now nowUtc =
        processPatternMatches limit now nowUtc p1 := by
  intro p1 rest allLinks limit now nowUtc h
  have hs : scrapePatterns limit now nowUtc (p1 :: rest) [] =
      processPatternMatches limit now nowUtc p1 := by
    rw [scrapePatterns]
    simp only [List.nil_append]
    rw [if_neg h]
  rw [scrape_investegate_main, hs, if_neg h]

/-- Witness for C7: pattern 1 yields 5 valid items and pattern 2 a different
5; the scraper returns exactly pattern 1's five records. -/
theorem C7_first_pattern_wins_witness :
    scrape_investegate_main [c7p1, c7p2] [] 50 [] [] =
      processPatternMatches 50 [] [] c7p1 ∧
    (processPatternMatches 50 [] [] c7p1).length = 5 ∧
    (processPatternMatches 50 [] [] c7p2).length = 5 :=
  ⟨C7_first_pattern_wins c7p1 [c7p2] [] 50 [] [] (by decide), by decide, by decide⟩

/-! ### C8: link absolutization (amended) -/

theorem resolveLinkPattern_http (link : Str) :
    (str "http").isPrefixOf (resolveLinkPattern link) = true := by
  by_cases h1 : link.head? = some '/'
  · rw [resolveLinkPattern, if_pos h1, List.isPrefixOf_iff_prefix]
    exact (show (str "http") <+: investegateOrigin by decide).trans (List.prefix_append _ _)
  · by_cases h2 : (str "http").isPrefixOf link = true
    · rw [resolveLinkPattern, if_neg h1, if_pos h2]
      exact h2
    · rw [resolveLinkPattern, if_neg h1, if_neg h2, List.isPrefixOf_iff_prefix]
      refine (show (str "http") <+: investegateOrigin by decide).trans ?_
      rw [List.append_assoc]
      exact List.prefix_append _ _

/-- C8 amended: every record assembled by the pattern pass carries a link
beginning with "http" — a link starting with "/" or not starting with "http"
is prefixed with the Investegate origin before the record is built.  (The
loose fallback resolves only links starting with "/", see the
counterexample.) -/
theorem C8_pattern_links_absolute :
    ∀ (limit : ℕ) (now nowUtc : Str) (ms : List (List Str)) (r : Rec),
      r ∈ processPatternMatches limit now nowUtc ms →
      (str "http").isPrefixOf r.link = true := by
  intro limit now nowUtc ms r hr
  rw [processPatternMatches, List.mem_filterMap] at hr
  obtain ⟨m, _, hm⟩ := hr
  rcases m with _ | ⟨link, m⟩
  · simp [processMatch] at hm
  rcases m with _ | ⟨rawTitle, restG⟩
  · simp [processMatch] at hm
  rw [processMatch.eq_def] at hm
  simp only [] at hm
  split at hm
  · exact absurd hm (by simp)
  · have hr2 := Option.some.inj hm
    rw [← hr2]
    exact resolveLinkPattern_http link

/-- Witness for C8: a relative pattern-pass link "/news/a1" is resolved
against the origin, so the produced record's link starts with "http". -/
theorem C8_pattern_links_absolute_witness :
    ((processPatternMatches 50 [] [] [[str "/news/a1", str "Alpha interim results"]]).all
      (fun r => (str "http").isPrefixOf r.link)) = true := by
  rw [List.all_eq_true]
  intro r hr
  exact C8_pattern_links_absolute 50 [] [] [[str "/news/a1", str "Alpha interim results"]] r hr

/-- Counterexample to C8 as stated: the loose fallback keeps the relative
link "news.html" unresolved (only links starting with "/" are absolutized
there), so the produced record has a non-empty link with no scheme or host. -/
theorem C8_counterexample :
    scrape_investegate_main [] [(str "news.html", str "Company announces strong results")]
        50 [] [] =
      [mkFallbackRecord [] [] (str "news.html") (str "Company announces strong results")] ∧
    (mkFallbackRecord [] [] (str "news.html") (str "Company announces strong results")).link =
      str "news.html" ∧
    urlHasSchemeHost (str "news.html") = false ∧
    str "news.html" ≠ [] := by
  refine ⟨by decide, by decide, by decide, by decide⟩

/-! ### C1: the fetcher does not filter empty titles (amended) -/

/-- Counterexample to C1 as stated: on a feed of 3 entries with non-empty
titles plus 1 entry with an empty title, fetch_yahoo_finance_rss emits 4
records (not 3), one of which has an empty title. -/
theorem C1_counterexample :
    (fetch_yahoo_finance_rss c1Entries 20 []).length = 4 ∧
    ∃ r ∈ fetch_yahoo_finance_rss c1Entries 20 [], r.title = [] := by
  refine ⟨by decide, by decide⟩

/-- C1 amended: the fetcher performs no title filtering — it emits one record
per entry up to the cap, so the 3-plus-1 feed yields exactly 4 records, of
which exactly 3 have non-empty titles and exactly 1 an empty title. -/
theorem C1_fetcher_no_title_filter :
    (fetch_yahoo_finance_rss c1Entries 20 []).length = 4 ∧
    ((fetch_yahoo_finance_rss c1Entries 20 []).filter
      (fun r => decide (r.title ≠ []))).length = 3 ∧
    ((fetch_yahoo_finance_rss c1Entries 20 []).filter
      (fun r => decide (r.title = []))).length = 1 := by
  refine ⟨by decide, by decide, by decide⟩

/-! ### C2 lemmas: stage identities and character membership -/

theorem puAux_id : ∀ (f : ℕ) (l : Str), '&' ∉ l → puAux f l = l := by
  intro f
  induction f with
  | zero => intro l _; rw [puAux]
  | succ f ih =>
    intro l h
    cases l with
    | nil => rw [puAux]
    | cons c rest =>
      have hc : ¬ c = '&' := by rintro rfl; exact h (List.mem_cons_self _ _)
      rw [puAux, if_neg hc, ih rest (fun hr => h (List.mem_cons_of_mem c hr))]

theorem pyUnescape_id (l : Str) (h : '&' ∉ l) : pyUnescape l = l := puAux_id _ l h

theorem rtAux_mem : ∀ (l : Str) (o : Option Str) (c : Char), c ∈ rtAux l o →
    c ∈ l ∨ o.elim False (fun acc => c = '<' ∨ c ∈ acc) := by
  intro l o
  induction l, o using rtAux.induct with
  | case1 =>
    intro c hc
    rw [rtAux] at hc
    exact absurd hc (List.not_mem_nil c)
  | case2 acc =>
    intro c hc
    rw [rtAux] at hc
    rcases List.mem_cons.mp hc with h | h
    · exact Or.inr (Or.inl h)
    · exact Or.inr (Or.inr (List.mem_reverse.mp h))
  | case3 rest ih =>
    intro c hc
    rw [rtAux, if_pos rfl] at hc
    rcases ih c hc with h | h
    · exact Or.inl (List.mem_cons_of_mem _ h)
    · rcases h with h | h
      · exact Or.inl (h ▸ List.mem_cons_self _ _)
      · exact absurd h (List.not_mem_nil c)
  | case4 c0 rest hne ih =>
    intro c hc
    rw [rtAux, if_neg hne] at hc
    rcases List.mem_cons.mp hc with h | h
    · exact Or.inl (h ▸ List.mem_cons_self _ _)
    · rcases ih c h with h2 | h2
      · exact Or.inl (List.mem_cons_of_mem _ h2)
      · exact absurd h2 (by simp)
  | case5 rest ih =>
    intro c hc
    rw [rtAux, if_pos rfl, if_pos rfl] at hc
    rcases List.mem_cons.mp hc with h | h
    · exact Or.inr (Or.inl h)
    · rcases List.mem_cons.mp h with h2 | h2
      · exact Or.inl (h2 ▸ List.mem_cons_self _ _)
      · rcases ih c h2 with h3 | h3
        · exact Or.inl (List.mem_cons_of_mem _ h3)
        · exact absurd h3 (by simp)
  | case6 rest acc hacc ih =>
    intro c hc
    rw [rtAux, if_pos rfl, if_neg hacc] at hc
    rcases ih c hc with h | h
    · exact Or.inl (List.mem_cons_of_mem _ h)
    · exact absurd h (by simp)
  | case7 c0 rest acc hne ih =>
    intro c hc
    rw [rtAux, if_neg hne] at hc
    rcases ih c hc with h | h
    · exact Or.inl (List.mem_cons_of_mem _ h)
    · rcases h with h | h
      · exact Or.inr (Or.inl h)
      · rcases List.mem_cons.mp h with h2 | h2
        · exact Or.inl (h2 ▸ List.mem_cons_self _ _)
        · exact Or.inr (Or.inr h2)

theorem removeTags_mem (l : Str) (c : Char) (hc : c ∈ removeTags l) : c ∈ l := by
  rcases rtAux_mem l none c hc with h | h
  · exact h
  · exact absurd h (by simp)

theorem cwAux_mem : ∀ (l : Str) (b : Bool) (c : Char), c ∈ cwAux l b → c ∈ l ∨ c = ' ' := by
  intro l
  induction l with
  | nil => intro b c hc; rw [cwAux] at hc; exact absurd hc (List.not_mem_nil c)
  | cons c0 rest ih =>
    intro b c hc
    rw [cwAux] at hc
    by_cases hws : pyIsSpace c0
    · rw [if_pos hws] at hc
      by_cases hb : b
      · rw [if_pos hb] at hc
        rcases ih true c hc with h | h
        · exact Or.inl (List.mem_cons_of_mem _ h)
        · exact Or.inr h
      · rw [if_neg hb] at hc
        rcases List.mem_cons.mp hc with h | h
        · exact Or.inr h
        · rcases ih true c h with h2 | h2
          · exact Or.inl (List.mem_cons_of_mem _ h2)
          · exact Or.inr h2
    · rw [if_neg hws] at hc
      rcases List.mem_cons.mp hc with h | h
      · exact Or.inl (h ▸ List.mem_cons_self _ _)
      · rcases ih false c h with h2 | h2
        · exact Or.inl (List.mem_cons_of_mem _ h2)
        · exact Or.inr h2

theorem stripWs_sublist (l : Str) : List.Sublist (stripWs l) l := by
  rw [stripWs]
  have h1 : List.Sublist (l.dropWhile pyIsSpace) l := (List.dropWhile_suffix pyIsSpace).sublist
  have h2 : List.Sublist ((l.dropWhile pyIsSpace).reverse.dropWhile pyIsSpace)
      (l.dropWhile pyIsSpace).reverse := (List.dropWhile_suffix pyIsSpace).sublist
  have h3 := h2.reverse
  rw [List.reverse_reverse] at h3
  exact h3.trans h1

theorem stripWs_mem (l : Str) (c : Char) (hc : c ∈ stripWs l) : c ∈ l :=
  (stripWs_sublist l).subset hc

theorem replaceBsN_id : ∀ l : Str, '\\' ∉ l → replaceBsN l = l := by
  intro l
  induction l using replaceBsN.induct with
  | case1 => intro _; rw [replaceBsN]
  | case2 c => intro _; rw [replaceBsN]
  | case3 c1 c2 rest hp ih =>
    intro h
    exact absurd (hp.1 ▸ List.mem_cons_self c1 (c2 :: rest)) h
  | case4 c1 c2 rest hp ih =>
    intro h
    rw [replaceBsN, if_neg hp, ih (fun h2 => h (List.mem_cons_of_mem c1 h2))]

theorem replaceBsT_id : ∀ l : Str, '\\' ∉ l → replaceBsT l = l := by
  intro l
  induction l using replaceBsT.induct with
  | case1 => intro _; rw [replaceBsT]
  | case2 c => intro _; rw [replaceBsT]
  | case3 c1 c2 rest hp ih =>
    intro h
    exact absurd (hp.1 ▸ List.mem_cons_self c1 (c2 :: rest)) h
  | case4 c1 c2 rest hp ih =>
    intro h
    rw [replaceBsT, if_neg hp, ih (fun h2 => h (List.mem_cons_of_mem c1 h2))]

/-- The characters of the strip-collapse-removeTags core are characters of
the input or plain spaces. -/
theorem cleanCore_mem (t : Str) (c : Char)
    (hc : c ∈ stripWs (collapseWs (removeTags t))) : c ∈ t ∨ c = ' ' := by
  rcases cwAux_mem (removeTags t) false c (stripWs_mem _ c hc) with h | h
  · exact Or.inl (removeTags_mem t c h)
  · exact Or.inr h

/-! ### C2 lemmas: the tag-free invariant -/

theorem tagFree_append_right : ∀ u v : Str, tagFree (u ++ v) → tagFree v := by
  intro u
  induction u with
  | nil => intro v h; exact h
  | cons c u ih =>
    intro v h
    rw [List.cons_append, tagFree] at h
    exact ih v h.2

theorem noGt_tagFree : ∀ l : Str, '>' ∉ l → tagFree l := by
  intro l
  induction l with
  | nil => intro _; rw [tagFree]; trivial
  | cons c rest ih =>
    intro h
    rw [tagFree]
    refine ⟨fun _ => Or.inr fun h2 => h (List.mem_cons_of_mem c h2), ?_⟩
    exact ih fun h2 => h (List.mem_cons_of_mem c h2)

theorem tagFree_append_left : ∀ v u : Str, tagFree (v ++ u) → tagFree v := by
  intro v
  induction v with
  | nil => intro u _; rw [tagFree]; trivial
  | cons c v ih =>
    intro u h
    rw [List.cons_append, tagFree] at h
    rw [tagFree]
    refine ⟨?_, ih u h.2⟩
    intro hc
    rcases h.1 hc with h1 | h1
    · cases v with
      | nil => exact Or.inr (List.not_mem_nil _)
      | cons d v2 =>
        have hd : d = '>' := by simpa using h1
        left
        simp [hd]
    · exact Or.inr fun h2 => h1 (List.mem_append_left u h2)

theorem rtAux_noGt : ∀ (l acc : Str), '>' ∉ l →
    rtAux l (some acc) = '<' :: (acc.reverse ++ l) := by
  intro l
  induction l with
  | nil => intro acc _; rw [rtAux]; simp
  | cons c rest ih =>
    intro acc h
    have hc : ¬ c = '>' := by rintro rfl; exact h (List.mem_cons_self _ _)
    rw [rtAux, if_neg hc, ih (c :: acc) fun h2 => h (List.mem_cons_of_mem c h2)]
    simp

theorem tagFree_rtAux : ∀ (l : Str) (o : Option Str),
    o.elim True (fun acc => '>' ∉ acc) → tagFree (rtAux l o) := by
  intro l o
  induction l, o using rtAux.induct with
  | case1 => intro _; rw [rtAux, tagFree]; trivial
  | case2 acc =>
    intro h
    simp only [Option.elim] at h
    rw [rtAux, tagFree]
    refine ⟨fun _ => Or.inr fun h2 => h (List.mem_reverse.mp h2), ?_⟩
    exact noGt_tagFree _ fun h2 => h (List.mem_reverse.mp h2)
  | case3 rest ih =>
    intro _
    rw [rtAux, if_pos rfl]
    exact ih (by simp)
  | case4 c rest hne ih =>
    intro _
    rw [rtAux, if_neg hne, tagFree]
    exact ⟨fun hc => absurd hc hne, ih trivial⟩
  | case5 rest ih =>
    intro _
    rw [rtAux, if_pos rfl, if_pos rfl, tagFree]
    refine ⟨fun _ => Or.inl rfl, ?_⟩
    rw [tagFree]
    exact ⟨fun h => absurd h (by decide), ih trivial⟩
  | case6 rest acc hacc ih =>
    intro _
    rw [rtAux, if_pos rfl, if_neg hacc]
    exact ih trivial
  | case7 c rest acc hne ih =>
    intro h
    simp only [Option.elim] at h
    rw [rtAux, if_neg hne]
    apply ih
    simp only [Option.elim]
    intro h2
    rcases List.mem_cons.mp h2 with h3 | h3
    · exact hne h3.symm
    · exact h h3

theorem tagFree_removeTags (l : Str) : tagFree (removeTags l) := tagFree_rtAux l none trivial

theorem rtAux_none_id : ∀ (n : ℕ) (l : Str), l.length ≤ n → tagFree l → rtAux l none = l := by
  intro n
  induction n with
  | zero =>
    intro l hl _
    have h0 : l = [] := List.length_eq_zero.mp (Nat.le_zero.mp hl)
    subst h0
    rw [rtAux]
  | succ n ih =>
    intro l hl hf
    cases l with
    | nil => rw [rtAux]
    | cons c rest =>
      rw [tagFree] at hf
      by_cases hc : c = '<'
      · subst hc
        rw [rtAux, if_pos rfl]
        rcases hf.1 rfl with h1 | h1
        · cases rest with
          | nil => simp at h1
          | cons d rest2 =>
            have hd : d = '>' := by simpa using h1
            subst hd
            rw [rtAux, if_pos rfl, if_pos rfl]
            have hf2 := hf.2
            rw [tagFree] at hf2
            rw [ih rest2 (by simp only [List.length_cons] at hl ⊢; omega) hf2.2]
        · rw [rtAux_noGt rest [] h1]
          simp
      · rw [rtAux, if_neg hc]
        rw [ih rest (by simp only [List.length_cons] at hl ⊢; omega) hf.2]

theorem removeTags_id (l : Str) (h : tagFree l) : removeTags l = l :=
  rtAux_none_id l.length l (le_refl _) h

/-! ### C2 lemmas: preservation of the invariants by collapsing and stripping -/

theorem tagFree_cwAux : ∀ (l : Str) (b : Bool), tagFree l → tagFree (cwAux l b) := by
  intro l
  induction l with
  | nil => intro b _; rw [cwAux, tagFree]; trivial
  | cons c rest ih =>
    intro b h
    rw [tagFree] at h
    rw [cwAux]
    by_cases hws : pyIsSpace c
    · rw [if_pos hws]
      by_cases hb : b
      · rw [if_pos hb]
        exact ih true h.2
      · rw [if_neg hb, tagFree]
        exact ⟨fun hcon => absurd hcon (by decide), ih true h.2⟩
    · rw [if_neg hws, tagFree]
      refine ⟨?_, ih false h.2⟩
      intro hc
      rcases h.1 hc with h1 | h1
      · cases rest with
        | nil => exact Or.inr (by rw [cwAux]; exact List.not_mem_nil _)
        | cons d rest2 =>
          have hd : d = '>' := by simpa using h1
          subst hd
          left
          rw [cwAux, if_neg (by decide)]
          rfl
      · right
        intro hmem
        rcases cwAux_mem rest false '>' hmem with h2 | h2
        · exact h1 h2
        · exact absurd h2 (by decide)

theorem tagFree_stripWs (l : Str) (h : tagFree l) : tagFree (stripWs l) := by
  obtain ⟨u, hu⟩ := @List.dropWhile_suffix Char l pyIsSpace
  have hA : tagFree (l.dropWhile pyIsSpace) :=
    tagFree_append_right u _ (by rw [hu]; exact h)
  obtain ⟨w, hw⟩ := @List.dropWhile_suffix Char (l.dropWhile pyIsSpace).reverse pyIsSpace
  have hA2 : l.dropWhile pyIsSpace =
      ((l.dropWhile pyIsSpace).reverse.dropWhile pyIsSpace).reverse ++ w.reverse := by
    have h3 := congrArg List.reverse hw
    rw [List.reverse_append, List.reverse_reverse] at h3
    exact h3.symm
  rw [stripWs]
  exact tagFree_append_left _ w.reverse (by rw [← hA2]; exact hA)

theorem cwAux_ws_space : ∀ (l : Str) (b : Bool) (c : Char),
    c ∈ cwAux l b → pyIsSpace c = true → c = ' ' := by
  intro l
  induction l with
  | nil => intro b c hc _; rw [cwAux] at hc; exact absurd hc (List.not_mem_nil c)
  | cons c0 rest ih =>
    intro b c hc hws
    rw [cwAux] at hc
    by_cases h0 : pyIsSpace c0
    · rw [if_pos h0] at hc
      by_cases hb : b
      · rw [if_pos hb] at hc
        exact ih true c hc hws
      · rw [if_neg hb] at hc
        rcases List.mem_cons.mp hc with h | h
        · exact h
        · exact ih true c h hws
    · rw [if_neg h0] at hc
      rcases List.mem_cons.mp hc with h | h
      · rw [h] at hws; exact absurd hws h0
      · exact ih false c h hws

theorem cwAux_true_head : ∀ (l : Str) (c : Char),
    (cwAux l true).head? = some c → pyIsSpace c = false := by
  intro l
  induction l with
  | nil => intro c hc; rw [cwAux] at hc; simp at hc
  | cons c0 rest ih =>
    intro c hc
    rw [cwAux] at hc
    by_cases h0 : pyIsSpace c0
    · rw [if_pos h0, if_pos rfl] at hc
      exact ih c hc
    · rw [if_neg h0] at hc
      have h1 : c0 = c := by simpa using hc
      rw [← h1]
      simpa using h0

theorem noAdjWs_cwAux : ∀ (l : Str) (b : Bool), noAdjWs (cwAux l b) := by
  intro l
  induction l with
  | nil => intro b; rw [cwAux]; exact List.chain'_nil
  | cons c0 rest ih =>
    intro b
    rw [cwAux]
    by_cases h0 : pyIsSpace c0
    · rw [if_pos h0]
      by_cases hb : b
      · rw [if_pos hb]
        exact ih true
      · rw [if_neg hb, noAdjWs, List.chain'_cons']
        refine ⟨?_, ih true⟩
        intro y hy hcon
        have h2 := cwAux_true_head rest y (Option.mem_def.mp hy)
        rw [h2] at hcon
        exact absurd hcon.2 (by simp)
    · rw [if_neg h0, noAdjWs, List.chain'_cons']
      refine ⟨?_, ih false⟩
      intro y hy hcon
      exact absurd hcon.1 h0

theorem noAdjWs_collapseWs (l : Str) : noAdjWs (collapseWs l) := noAdjWs_cwAux l false

theorem wsEachSpace_collapseWs (l : Str) : wsEachSpace (collapseWs l) :=
  fun c hc hws => cwAux_ws_space l false c hc hws

theorem stripWs_isInfix (l : Str) : stripWs l <:+: l := by
  obtain ⟨u, hu⟩ := @List.dropWhile_suffix Char l pyIsSpace
  obtain ⟨w, hw⟩ := @List.dropWhile_suffix Char (l.dropWhile pyIsSpace).reverse pyIsSpace
  refine ⟨u, w.reverse, ?_⟩
  rw [stripWs]
  have hA : l.dropWhile pyIsSpace =
      ((l.dropWhile pyIsSpace).reverse.dropWhile pyIsSpace).reverse ++ w.reverse := by
    have h3 := congrArg List.reverse hw
    rw [List.reverse_append, List.reverse_reverse] at h3
    exact h3.symm
  rw [List.append_assoc, ← hA, hu]

theorem noAdjWs_stripWs (l : Str) (h : noAdjWs l) : noAdjWs (stripWs l) :=
  List.Chain'.infix h (stripWs_isInfix l)

theorem wsEachSpace_stripWs (l : Str) (h : wsEachSpace l) : wsEachSpace (stripWs l) :=
  fun c hc hws => h c (stripWs_mem l c hc) hws

theorem dropWhile_head_not : ∀ (l : Str) (c : Char),
    (l.dropWhile pyIsSpace).head? = some c → pyIsSpace c = false := by
  intro l
  induction l with
  | nil => intro c hc; simp at hc
  | cons c0 rest ih =>
    intro c hc
    rw [List.dropWhile_cons] at hc
    by_cases h0 : pyIsSpace c0
    · rw [if_pos h0] at hc
      exact ih c hc
    · rw [if_neg h0] at hc
      have h1 : c0 = c := by simpa using hc
      rw [← h1]
      simpa using h0

theorem stripWs_head_not (l : Str) (c : Char) (hc : (stripWs l).head? = some c) :
    pyIsSpace c = false := by
  obtain ⟨w, hw⟩ := @List.dropWhile_suffix Char (l.dropWhile pyIsSpace).reverse pyIsSpace
  have hA : l.dropWhile pyIsSpace = stripWs l ++ w.reverse := by
    have h3 := congrArg List.reverse hw
    rw [List.reverse_append, List.reverse_reverse] at h3
    rw [stripWs]
    exact h3.symm
  have hne : stripWs l ≠ [] := by
    intro h0
    rw [h0] at hc
    simp at hc
  have h4 := @List.head?_append_of_ne_nil Char (stripWs l) w.reverse hne
  rw [← hA] at h4
  exact dropWhile_head_not l c (by rw [h4, hc])

theorem stripWs_getLast_not (l : Str) (c : Char) (hc : (stripWs l).getLast? = some c) :
    pyIsSpace c = false := by
  rw [stripWs, List.getLast?_reverse] at hc
  exact dropWhile_head_not (l.dropWhile pyIsSpace).reverse c hc

/-! ### C2 lemmas: canonical whitespace is a fixed point of collapse and strip -/

theorem cwAux_canon_id : ∀ (n : ℕ) (l : Str), l.length ≤ n → wsEachSpace l → noAdjWs l →
    cwAux l false = l := by
  intro n
  induction n with
  | zero =>
    intro l hl _ _
    have h0 : l = [] := List.length_eq_zero.mp (Nat.le_zero.mp hl)
    subst h0
    rw [cwAux]
  | succ n ih =>
    intro l hl hws hadj
    cases l with
    | nil => rw [cwAux]
    | cons c rest =>
      by_cases h0 : pyIsSpace c
      · have hc : c = ' ' := hws c (List.mem_cons_self _ _) h0
        subst hc
        rw [cwAux, if_pos h0, if_neg (by simp)]
        cases rest with
        | nil => rw [cwAux]
        | cons d rest2 =>
          have hd : pyIsSpace d = false := by
            rw [noAdjWs, List.chain'_cons'] at hadj
            have h2 := hadj.1 d (by simp)
            by_contra h3
            exact h2 ⟨h0, by simpa using h3⟩
          have hrec : cwAux (d :: rest2) false = d :: rest2 := by
            refine ih (d :: rest2) (by simp only [List.length_cons] at hl ⊢; omega) ?_ ?_
            · exact fun x hx h4 => hws x (List.mem_cons_of_mem _ hx) h4
            · rw [noAdjWs, List.chain'_cons'] at hadj
              exact hadj.2
          rw [cwAux, if_neg (by simp [hd])] at hrec ⊢
          rw [hrec]
      · rw [cwAux, if_neg h0]
        have hrec : cwAux rest false = rest := by
          refine ih rest (by simp only [List.length_cons] at hl ⊢; omega) ?_ ?_
          · exact fun x hx h4 => hws x (List.mem_cons_of_mem _ hx) h4
          · rw [noAdjWs, List.chain'_cons'] at hadj
            exact hadj.2
        rw [hrec]

theorem collapseWs_canon_id (l : Str) (hws : wsEachSpace l) (hadj : noAdjWs l) :
    collapseWs l = l := cwAux_canon_id l.length l (le_refl _) hws hadj

theorem stripWs_canon_id (l : Str)
    (hh : ∀ c, l.head? = some c → pyIsSpace c = false)
    (hl : ∀ c, l.getLast? = some c → pyIsSpace c = false) :
    stripWs l = l := by
  cases l with
  | nil => rfl
  | cons c rest =>
    have h1 : (c :: rest).dropWhile pyIsSpace = c :: rest := by
      rw [List.dropWhile_cons, if_neg (by simp [hh c rfl])]
    rw [stripWs, h1]
    have h2 : (c :: rest).reverse.dropWhile pyIsSpace = (c :: rest).reverse := by
      cases hrev : (c :: rest).reverse with
      | nil => simp at hrev
      | cons d rev2 =>
        rw [List.dropWhile_cons]
        have h3 : (c :: rest).getLast? = some d := by
          rw [← List.head?_reverse, hrev]
          rfl
        rw [if_neg (by simp [hl d h3])]
    rw [h2, List.reverse_reverse]

/-! ### C2: clean_text idempotence (amended) -/

theorem clean_text_eq_core (t : Str) (ht : t ≠ []) (hamp : '&' ∉ t) (hbs : '\\' ∉ t) :
    clean_text t = stripWs (collapseWs (removeTags t)) := by
  rw [clean_text, if_neg ht, pyUnescape_id t hamp]
  have hbs2 : '\\' ∉ stripWs (collapseWs (removeTags t)) := by
    intro h
    rcases cleanCore_mem t '\\' h with h2 | h2
    · exact hbs h2
    · exact absurd h2 (by decide)
  rw [replaceBsN_id _ hbs2, replaceBsT_id _ hbs2]

/-- C2 amended: clean_text is idempotent on every input that contains neither
an ambersand (so entity decoding cannot apply twice) nor a backslash (so the
late escape-artifact replacement cannot manufacture fresh whitespace after
the collapse/strip stage has run). -/
theorem C2_clean_text_idempotent_amended :
    ∀ t : Str, '&' ∉ t → '\\' ∉ t → clean_text (clean_text t) = clean_text t := by
  intro t hamp hbs
  by_cases ht : t = []
  · subst ht
    simp [clean_text]
  · rw [clean_text_eq_core t ht hamp hbs]
    by_cases hyn : stripWs (collapseWs (removeTags t)) = []
    · rw [hyn]
      simp [clean_text]
    · have hampy : '&' ∉ stripWs (collapseWs (removeTags t)) := by
        intro h
        rcases cleanCore_mem t '&' h with h2 | h2
        · exact hamp h2
        · exact absurd h2 (by decide)
      have hbsy : '\\' ∉ stripWs (collapseWs (removeTags t)) := by
        intro h
        rcases cleanCore_mem t '\\' h with h2 | h2
        · exact hbs h2
        · exact absurd h2 (by decide)
      have htf : tagFree (stripWs (collapseWs (removeTags t))) :=
        tagFree_stripWs _ (tagFree_cwAux _ false (tagFree_removeTags t))
      have hws : wsEachSpace (stripWs (collapseWs (removeTags t))) :=
        wsEachSpace_stripWs _ (wsEachSpace_collapseWs (removeTags t))
      have hadj : noAdjWs (stripWs (collapseWs (removeTags t))) :=
        noAdjWs_stripWs _ (noAdjWs_collapseWs (removeTags t))
      rw [clean_text, if_neg hyn, pyUnescape_id _ hampy,
        removeTags_id _ htf, collapseWs_canon_id _ hws hadj,
        stripWs_canon_id _ (fun c hc => stripWs_head_not _ c hc)
          (fun c hc => stripWs_getLast_not _ c hc),
        replaceBsN_id _ hbsy, replaceBsT_id _ hbsy]

/-- Counterexample to C2 as stated: on the three-character input consisting
of the letter a, a backslash and the letter n, clean_text produces "a " with
a trailing space (the backslash-n replacement runs after stripping), and a
second application strips that space, so the outputs differ. -/
theorem C2_counterexample :
    clean_text (str "a\\n") = str "a " ∧
    clean_text (clean_text (str "a\\n")) = str "a" ∧
    clean_text (clean_text (str "a\\n")) ≠ clean_text (str "a\\n") := by
  refine ⟨by decide, by decide, by decide⟩

/-- Witness for the amended C2 at a concrete markup-bearing input free of
ambersands and backslashes. -/
theorem C2_clean_text_idempotent_witness :
    ('&' ∉ str "x <b>hi there</b>") ∧ ('\\' ∉ str "x <b>hi there</b>") ∧
    clean_text (clean_text (str "x <b>hi there</b>")) = clean_text (str "x <b>hi there</b>") :=
  ⟨by decide, by decide, C2_clean_text_idempotent_amended _ (by decide) (by decide)⟩
